import Mathlib

/-!
Shallow embedding of the action-queue expansion and execution engine of the
ball-on-a-grid puzzle game: `Action` (src/js/Action.js), `ActionGroup` /
`GroupReference` (src/unnamed/part_001), `RepeatBlock` and the game `CONFIG`
(src/js/Renderer.js), `RecursiveGroup` / `RecursiveReference`
(src/unnamed/part_002), and `ActionQueue` (src/unnamed/part_001).

Durations, progress and frame deltas are JS numbers; they are modelled as
rationals.  Impure identity metadata (random ids, `Date.now()` names, colors)
carries no execution semantics and is not modelled.  JS object aliasing
(expanded steps holding live pointers back into `items`) is modelled by value:
the execution-state flags the engine writes through those pointers
(`isExecuting` / `isComplete` on repeat blocks, group references and recursive
references) are not observed by any property below.
-/

namespace StartSchool

/-- CONFIG.animation.actionDuration (src/js/Renderer.js, embedded config.js). -/
def actionDurationDefault : ℚ := 300

/-- EASING.easeInOutCubic from the embedded config.js:
`t < 0.5 ? 4*t*t*t : (t-1)*(2*t-2)*(2*t-2)+1`. -/
def easeInOutCubic (t : ℚ) : ℚ :=
  if t < 1/2 then 4 * t * t * t else (t - 1) * (2 * t - 2) * (2 * t - 2) + 1

/-- ActionType enum (src/js/Action.js). -/
inductive ActionType
  | moveUp
  | moveDown
  | moveLeft
  | moveRight
  | wait
deriving DecidableEq, Repr

/-- Direction vectors for each movement action (src/js/Action.js). -/
def DirectionVectors : ActionType → ℤ × ℤ
  | .moveUp => (0, -1)
  | .moveDown => (0, 1)
  | .moveLeft => (-1, 0)
  | .moveRight => (1, 0)
  | .wait => (0, 0)

/-- Action: a single atomic timed action (src/js/Action.js). -/
structure Action where
  type : ActionType
  duration : ℚ := actionDurationDefault
  isExecuting : Bool := false
  isComplete : Bool := false
  progress : ℚ := 0
deriving DecidableEq, Repr

namespace Action

/-- Constructor `new Action(type, duration)`. -/
def make (t : ActionType) (d : ℚ := actionDurationDefault) : Action :=
  { type := t, duration := d }

def getDirection (a : Action) : ℤ × ℤ := DirectionVectors a.type

/-- JS `Action.start()`. -/
def start (a : Action) : Action :=
  { a with isExecuting := true, isComplete := false, progress := 0 }

/-- JS `Action.update(deltaTime)`: returns the updated action and the value the
JS method returns (the eased progress, or the raw progress when the action is
not executing or already complete). -/
def update (a : Action) (deltaTime : ℚ) : Action × ℚ :=
  if !a.isExecuting || a.isComplete then
    (a, a.progress)
  else
    let p := a.progress + deltaTime / a.duration
    if p ≥ 1 then
      ({ a with progress := 1, isComplete := true, isExecuting := false },
        easeInOutCubic 1)
    else
      ({ a with progress := p }, easeInOutCubic p)

/-- JS `Action.reset()`. -/
def reset (a : Action) : Action :=
  { a with isExecuting := false, isComplete := false, progress := 0 }

/-- JS `Action.clone()`: same type and duration, fresh execution state. -/
def clone (a : Action) : Action :=
  make a.type a.duration

end Action

/-- ActionGroup (src/unnamed/part_001): the execution-relevant content is the
ordered list of template actions. -/
structure ActionGroup where
  actions : List Action := []
deriving DecidableEq, Repr

namespace ActionGroup

/-- JS `getActions()`: freshly cloned actions. -/
def getActions (g : ActionGroup) : List Action :=
  g.actions.map Action.clone

/-- JS `get size()`. -/
def size (g : ActionGroup) : ℕ := g.actions.length

end ActionGroup

/-- GroupReference (src/unnamed/part_001). -/
structure GroupReference where
  group : ActionGroup
  isExecuting : Bool := false
  isComplete : Bool := false
  currentActionIndex : ℕ := 0
deriving DecidableEq, Repr

namespace GroupReference

/-- JS `getActions()` delegates to the group. -/
def getActions (r : GroupReference) : List Action :=
  r.group.getActions

/-- JS `reset()`. -/
def reset (r : GroupReference) : GroupReference :=
  { r with isExecuting := false, isComplete := false, currentActionIndex := 0 }

end GroupReference

/-- MAX_REPETITIONS (src/js/Renderer.js). -/
def MAX_REPETITIONS : ℤ := 99

/-- DEFAULT_REPETITIONS (src/js/Renderer.js). -/
def DEFAULT_REPETITIONS : ℤ := 2

/-- MAX_ITEMS_IN_REPEAT (src/js/Renderer.js). -/
def MAX_ITEMS_IN_REPEAT : ℕ := 2

/-- An item inside a RepeatBlock: an Action or a GroupReference
(per the `addItem` contract in src/js/Renderer.js). -/
inductive RepeatItem
  | act (a : Action)
  | groupRef (r : GroupReference)
deriving DecidableEq, Repr

namespace RepeatItem

/-- JS `item.clone()` on a repeat item (both kinds have `clone`). -/
def clone : RepeatItem → RepeatItem
  | .act a => .act a.clone
  | .groupRef r => .groupRef { group := r.group }

end RepeatItem

/-- RepeatBlock (src/js/Renderer.js). -/
structure RepeatBlock where
  count : ℤ
  items : List RepeatItem := []
  isExecuting : Bool := false
  isComplete : Bool := false
  currentIteration : ℕ := 0
  currentItemIndex : ℕ := 0
deriving DecidableEq, Repr

/-- One entry of `RepeatBlock.getExpandedActions()`:
`{action, iteration, isFromRepeat: true, repeatBlock: this}`. -/
structure RepeatExpandedEntry where
  action : Action
  iteration : ℕ
deriving DecidableEq, Repr

namespace RepeatBlock

/-- Constructor `new RepeatBlock(count)`: clamps into [1, MAX_REPETITIONS]. -/
def make (count : ℤ := DEFAULT_REPETITIONS) : RepeatBlock :=
  { count := min (max 1 count) MAX_REPETITIONS }

/-- JS `addItem(item)`: rejected at the MAX_ITEMS_IN_REPEAT cap, otherwise the
item is cloned and appended.  Returns the updated block and the JS boolean. -/
def addItem (b : RepeatBlock) (item : RepeatItem) : RepeatBlock × Bool :=
  if b.items.length ≥ MAX_ITEMS_IN_REPEAT then
    (b, false)
  else
    ({ b with items := b.items ++ [item.clone] }, true)

/-- JS `setCount(count)`: clamps into [1, MAX_REPETITIONS]. -/
def setCount (b : RepeatBlock) (count : ℤ) : RepeatBlock :=
  { b with count := min (max 1 count) MAX_REPETITIONS }

/-- Expansion of a single repeat item, one iteration
(the per-item branch of `getExpandedActions`). -/
def expandOne : RepeatItem → List Action
  | .groupRef r => r.getActions.map Action.clone
  | .act a => [a.clone]

/-- JS `getExpandedActions()`: for each iteration 0..count-1, each item's actions
in order, each tagged with its iteration. -/
def getExpandedActions (b : RepeatBlock) : List RepeatExpandedEntry :=
  (List.range b.count.toNat).flatMap fun iteration =>
    b.items.flatMap fun item =>
      (expandOne item).map fun a => { action := a, iteration := iteration }

/-- JS `get size()`. -/
def size (b : RepeatBlock) : ℕ := b.items.length

/-- JS `reset()`. -/
def reset (b : RepeatBlock) : RepeatBlock :=
  { b with isExecuting := false, isComplete := false,
           currentIteration := 0, currentItemIndex := 0,
           items := b.items.map fun item =>
             match item with
             | .act a => .act a.reset
             | .groupRef r => .groupRef r.reset }

end RepeatBlock

/-- MAX_RECURSION_DEPTH (src/unnamed/part_002). -/
def MAX_RECURSION_DEPTH : ℤ := 5

/-- DEFAULT_RECURSION_DEPTH (src/unnamed/part_002). -/
def DEFAULT_RECURSION_DEPTH : ℤ := 3

/-- Recursion phase tag of an expanded recursive entry. -/
inductive Phase
  | pre
  | post
deriving DecidableEq, Repr

/-- RecursiveGroup (src/unnamed/part_002). -/
structure RecursiveGroup where
  preActions : List Action := []
  postActions : List Action := []
  maxDepth : ℤ := DEFAULT_RECURSION_DEPTH
  currentDepth : ℕ := 0
  isComplete : Bool := false
  isExecuting : Bool := false
deriving DecidableEq, Repr

/-- One entry of `RecursiveGroup.getExpandedActions()`. -/
structure RecursiveExpandedEntry where
  action : Action
  depth : ℕ
  phase : Phase
  actionIndex : ℕ
  isBaseCase : Bool
  isFirstAtDepth : Bool
  isLastAtDepth : Bool
deriving DecidableEq, Repr

namespace RecursiveGroup

/-- JS `setMaxDepth(depth)`: clamps into [1, MAX_RECURSION_DEPTH]. -/
def setMaxDepth (g : RecursiveGroup) (depth : ℤ) : RecursiveGroup :=
  { g with maxDepth := max 1 (min MAX_RECURSION_DEPTH depth) }

/-- JS `get baseSize()`. -/
def baseSize (g : RecursiveGroup) : ℕ :=
  g.preActions.length + g.postActions.length

/-- JS `getExpandedActions(depth)`: unrolls the recursion.  Empty at
`depth >= maxDepth`; otherwise pre-actions at this depth, then (unless at the
base case `depth == maxDepth - 1`) the recursive expansion at depth+1, then
post-actions at this depth. -/
def getExpandedActions (g : RecursiveGroup) (depth : ℕ := 0) :
    List RecursiveExpandedEntry :=
  if g.maxDepth ≤ (depth : ℤ) then
    []
  else
    let isBaseCase : Bool := decide ((depth : ℤ) = g.maxDepth - 1)
    let pres := g.preActions.enum.map fun p =>
      { action := p.2.clone, depth := depth, phase := Phase.pre,
        actionIndex := p.1, isBaseCase := false,
        isFirstAtDepth := decide (p.1 = 0), isLastAtDepth := false }
    let nested := if isBaseCase then [] else g.getExpandedActions (depth + 1)
    let posts := g.postActions.enum.map fun p =>
      { action := p.2.clone, depth := depth, phase := Phase.post,
        actionIndex := p.1,
        isBaseCase := isBaseCase && decide (p.1 = 0),
        isFirstAtDepth := false,
        isLastAtDepth := decide (p.1 = g.postActions.length - 1) }
    pres ++ nested ++ posts
termination_by (g.maxDepth - (depth : ℤ)).toNat
decreasing_by
  simp only [not_le] at *
  omega

/-- JS `getTotalActionCount()`: `(pre + post) * maxDepth` as written in the
source. -/
def getTotalActionCount (g : RecursiveGroup) : ℤ :=
  (g.baseSize : ℤ) * g.maxDepth

/-- JS `reset()`. -/
def reset (g : RecursiveGroup) : RecursiveGroup :=
  { g with isComplete := false, isExecuting := false, currentDepth := 0,
           preActions := g.preActions.map Action.reset,
           postActions := g.postActions.map Action.reset }

end RecursiveGroup

/-- RecursiveReference (src/unnamed/part_002). -/
structure RecursiveReference where
  group : RecursiveGroup
  isComplete : Bool := false
  isExecuting : Bool := false
  currentDepth : ℕ := 0
deriving DecidableEq, Repr

namespace RecursiveReference

/-- JS `getExpandedActions()` delegates to the group. -/
def getExpandedActions (r : RecursiveReference) : List RecursiveExpandedEntry :=
  r.group.getExpandedActions

/-- JS `getMaxDepth()`. -/
def getMaxDepth (r : RecursiveReference) : ℤ := r.group.maxDepth

/-- JS `reset()`. -/
def reset (r : RecursiveReference) : RecursiveReference :=
  { r with isComplete := false, isExecuting := false, currentDepth := 0 }

end RecursiveReference

/-- QueueState enum (src/unnamed/part_001). -/
inductive QueueState
  | idle
  | running
  | paused
  | complete
deriving DecidableEq, Repr

/-- A top-level queue item: action, group reference, repeat block or
recursive reference (src/unnamed/part_001). -/
inductive QueueItem
  | act (a : Action)
  | groupRef (r : GroupReference)
  | repeatBlock (b : RepeatBlock)
  | recursiveRef (r : RecursiveReference)
deriving DecidableEq, Repr

namespace QueueItem

/-- JS `if (item.reset) item.reset()` — every modelled item kind has `reset`. -/
def reset : QueueItem → QueueItem
  | .act a => .act a.reset
  | .groupRef r => .groupRef r.reset
  | .repeatBlock b => .repeatBlock b.reset
  | .recursiveRef r => .recursiveRef r.reset

end QueueItem

/-- One entry of `ActionQueue.expandedActions` as built by `expandItems()`.
The JS object stores live back-pointers (`repeatBlock`, `groupRef`,
`recursiveRef`); here only their null/non-null status is kept (`hasRepeatBlock`
etc.), which is what the callback guards test.  Fields a JS branch leaves
undefined are modelled by their falsy defaults. -/
structure ExpandedStep where
  action : Action
  itemIndex : ℕ
  isFromGroup : Bool := false
  isFromRepeat : Bool := false
  isFromRecursion : Bool := false
  hasRepeatBlock : Bool := false
  hasRecursiveRef : Bool := false
  hasGroupRef : Bool := false
  recursionDepth : ℕ := 0
  recursionPhase : Option Phase := none
  recursionMaxDepth : ℤ := 0
  isBaseCase : Bool := false
  isFirstAtDepth : Bool := false
  isLastAtDepth : Bool := false
  iteration : ℕ := 0
  totalIterations : ℤ := 1
  isFirstInIteration : Bool := false
  isLastInIteration : Bool := false
  isFirstInRepeat : Bool := false
  isLastInRepeat : Bool := false
  isFirstInRecursion : Bool := false
  isLastInRecursion : Bool := false
  actionIndexInGroup : ℤ := -1
  isFirstInGroup : Bool := false
  isLastInGroup : Bool := false
deriving DecidableEq, Repr

/-- Callback firings, recorded in order.  `actionStart`/`actionComplete` carry
the action's type and the cursor value they were fired with. -/
inductive Event
  | actionStart (t : ActionType) (index : ℕ)
  | actionComplete (t : ActionType) (index : ℕ)
  | queueComplete
  | queueChange
  | groupStart
  | groupComplete
  | repeatStart
  | repeatIteration (iteration : ℕ)
  | repeatComplete
  | recursionStart
  | recursionDepthChange (depth : ℕ)
  | recursionComplete
deriving DecidableEq, Repr

/-- ActionQueue (src/unnamed/part_001). -/
structure ActionQueue where
  items : List QueueItem := []
  maxSize : ℕ
  currentIndex : ℕ := 0
  state : QueueState := .idle
  expandedActions : List ExpandedStep := []
  expandedIndex : ℕ := 0
deriving DecidableEq, Repr

namespace ActionQueue

/-- Constructor `new ActionQueue(maxSize)` (CONFIG.actions.maxQueueSize = 50). -/
def make (maxSize : ℕ := 50) : ActionQueue :=
  { maxSize := maxSize }

/-- JS `add(item)`: rejected when full or while running; otherwise appends and
notifies.  Returns the queue, the JS boolean, and the fired callbacks. -/
def add (q : ActionQueue) (item : QueueItem) : ActionQueue × Bool × List Event :=
  if q.items.length ≥ q.maxSize then
    (q, false, [])
  else if q.state = .running then
    (q, false, [])
  else
    ({ q with items := q.items ++ [item] }, true, [.queueChange])

/-- JS `removeAt(index)`: rejected while running; `null` on an invalid index;
otherwise splices the item out and notifies. -/
def removeAt (q : ActionQueue) (index : ℕ) : ActionQueue × Option QueueItem × List Event :=
  if q.state = .running then
    (q, none, [])
  else
    match q.items.get? index with
    | none => (q, none, [])
    | some removed =>
        ({ q with items := q.items.eraseIdx index }, some removed, [.queueChange])

/-- Expansion of a repeat-block item (the `isRepeatBlock` branch of
`expandItems`), with the neighbour-based iteration-boundary flags. -/
def expandRepeatItem (itemIndex : ℕ) (b : RepeatBlock) : List ExpandedStep :=
  let expandedRepeat := b.getExpandedActions
  expandedRepeat.enum.map fun p =>
    { action := p.2.action
      itemIndex := itemIndex
      isFromRepeat := true
      hasRepeatBlock := true
      iteration := p.2.iteration
      totalIterations := b.count
      isFirstInIteration :=
        decide ((expandedRepeat.get? (p.1 - 1)).map RepeatExpandedEntry.iteration
          ≠ some p.2.iteration) || decide (p.1 = 0)
      isLastInIteration :=
        decide (p.1 = expandedRepeat.length - 1) ||
        decide ((expandedRepeat.get? (p.1 + 1)).map RepeatExpandedEntry.iteration
          ≠ some p.2.iteration)
      isFirstInRepeat := decide (p.1 = 0)
      isLastInRepeat := decide (p.1 = expandedRepeat.length - 1) }

/-- Expansion of a group-reference item (the `isGroupReference` branch of
`expandItems`). -/
def expandGroupItem (itemIndex : ℕ) (r : GroupReference) : List ExpandedStep :=
  let actions := r.getActions
  actions.enum.map fun p =>
    { action := p.2
      itemIndex := itemIndex
      isFromGroup := true
      hasGroupRef := true
      actionIndexInGroup := (p.1 : ℤ)
      isFirstInGroup := decide (p.1 = 0)
      isLastInGroup := decide (p.1 = actions.length - 1) }

/-- Expansion of a recursive-reference item (the `isRecursiveReference`
branch of `expandItems`). -/
def expandRecursiveItem (itemIndex : ℕ) (r : RecursiveReference) : List ExpandedStep :=
  let expandedRecursive := r.getExpandedActions
  expandedRecursive.enum.map fun p =>
    { action := p.2.action
      itemIndex := itemIndex
      isFromRecursion := true
      hasRecursiveRef := true
      recursionDepth := p.2.depth
      recursionPhase := some p.2.phase
      recursionMaxDepth := r.getMaxDepth
      isBaseCase := p.2.isBaseCase
      isFirstAtDepth := p.2.isFirstAtDepth
      isLastAtDepth := p.2.isLastAtDepth
      isFirstInRecursion := decide (p.1 = 0)
      isLastInRecursion := decide (p.1 = expandedRecursive.length - 1) }

/-- Expansion of one queue item at its top-level index. -/
def expandItem (itemIndex : ℕ) : QueueItem → List ExpandedStep
  | .repeatBlock b => expandRepeatItem itemIndex b
  | .groupRef r => expandGroupItem itemIndex r
  | .recursiveRef r => expandRecursiveItem itemIndex r
  | .act a => [{ action := a, itemIndex := itemIndex }]

/-- JS `expandItems()`: rebuilds `expandedActions` from `items`. -/
def expandItems (q : ActionQueue) : ActionQueue :=
  { q with expandedActions :=
      q.items.enum.flatMap fun p => expandItem p.1 p.2 }

/-- JS `getCurrentItemInfo()`. -/
def getCurrentItemInfo (q : ActionQueue) : Option ExpandedStep :=
  q.expandedActions.get? q.expandedIndex

/-- JS `getCurrentAction()`. -/
def getCurrentAction (q : ActionQueue) : Option Action :=
  (q.getCurrentItemInfo).map ExpandedStep.action

/-- The opening boundary callbacks fired when a step's action is started,
in source order, ending with `onActionStart` (shared by `start()` and
`update()`). -/
def openingEvents (info : ExpandedStep) (index : ℕ) : List Event :=
  (if info.isFirstInRepeat && info.hasRepeatBlock then [Event.repeatStart] else [])
  ++ (if info.isFirstInIteration && info.hasRepeatBlock then
        [Event.repeatIteration info.iteration] else [])
  ++ (if info.isFirstInRecursion && info.hasRecursiveRef then
        [Event.recursionStart] else [])
  ++ (if info.isFromRecursion && info.isFirstAtDepth then
        [Event.recursionDepthChange info.recursionDepth] else [])
  ++ (if info.isFirstInGroup && info.hasGroupRef then [Event.groupStart] else [])
  ++ [Event.actionStart info.action.type index]

/-- The closing boundary callbacks fired after `onActionComplete`, in source
order: repeat completion, group completion, recursion completion. -/
def closingEvents (info : ExpandedStep) : List Event :=
  (if info.isLastInIteration && info.hasRepeatBlock &&
      !(decide ((info.iteration : ℤ) < info.totalIterations - 1)) &&
      info.isLastInRepeat then [Event.repeatComplete] else [])
  ++ (if info.isLastInGroup && info.hasGroupRef then [Event.groupComplete] else [])
  ++ (if info.isLastInRecursion && info.hasRecursiveRef then
        [Event.recursionComplete] else [])

/-- Replace the step at `index` after starting its action
(`info.action.start()` writes through the step's action pointer). -/
def startActionAt (q : ActionQueue) (index : ℕ) : ActionQueue :=
  match q.expandedActions.get? index with
  | none => q
  | some info =>
      { q with expandedActions :=
          q.expandedActions.set index { info with action := info.action.start } }

/-- JS `reset()`: cursor to 0, idle, expansion dropped, every item reset. -/
def reset (q : ActionQueue) : ActionQueue :=
  { q with currentIndex := 0, expandedIndex := 0, state := .idle,
           expandedActions := [],
           items := q.items.map QueueItem.reset }

/-- JS `stop()`: sets idle then resets. -/
def stop (q : ActionQueue) : ActionQueue :=
  reset { q with state := .idle }

/-- JS `clear()`: stops first when running, then drops items and expansion and
notifies. -/
def clear (q : ActionQueue) : ActionQueue × List Event :=
  let q := if q.state = .running then q.stop else q
  ({ q with items := [], expandedActions := [], currentIndex := 0,
            expandedIndex := 0, state := .idle }, [.queueChange])

/-- JS `start()`: rejected on an empty item list; auto-reset when complete;
re-expands; rejected (after the expansion was stored) when the expansion is
empty; otherwise runs, starts the step under the cursor and fires its opening
callbacks, then notifies. -/
def start (q : ActionQueue) : ActionQueue × List Event :=
  if q.items.length = 0 then
    (q, [])
  else
    let q := if q.state = .complete then q.reset else q
    let q := q.expandItems
    if q.expandedActions.length = 0 then
      (q, [])
    else
      let q := { q with state := .running }
      match q.getCurrentItemInfo with
      | some info =>
          (q.startActionAt q.expandedIndex,
            openingEvents { info with action := info.action.start } q.expandedIndex
              ++ [.queueChange])
      | none => (q, [.queueChange])

/-- JS `pause()`: Running → Paused, nothing else. -/
def pause (q : ActionQueue) : ActionQueue × List Event :=
  if q.state = .running then ({ q with state := .paused }, []) else (q, [])

/-- JS `resume()`: Paused → Running, nothing else. -/
def resume (q : ActionQueue) : ActionQueue × List Event :=
  if q.state = .paused then ({ q with state := .running }, []) else (q, [])

/-- The per-frame return value of `update(deltaTime)`. -/
structure UpdateResult where
  action : Option Action := none
  progress : ℚ := 0
  direction : ℤ × ℤ := (0, 0)
  actionComplete : Bool := false
deriving DecidableEq, Repr

/-- JS `update(deltaTime)`: advances the current step's action; on completion
fires `onActionComplete` and closing callbacks, advances the cursor, then
either starts the next step (opening callbacks + `onActionStart`) or
completes the queue. -/
def update (q : ActionQueue) (deltaTime : ℚ) :
    ActionQueue × UpdateResult × List Event :=
  if q.state ≠ .running then
    (q, {}, [])
  else
    match q.getCurrentItemInfo with
    | none => ({ q with state := .complete }, {}, [.queueComplete])
    | some info =>
        let updated := info.action.update deltaTime
        let info := { info with action := updated.1 }
        let q := { q with expandedActions :=
          q.expandedActions.set q.expandedIndex info }
        let result : UpdateResult :=
          { action := some info.action, progress := updated.2,
            direction := info.action.getDirection,
            actionComplete := info.action.isComplete }
        if info.action.isComplete then
          let completionEvents :=
            [Event.actionComplete info.action.type q.expandedIndex]
              ++ closingEvents info
          let q := { q with expandedIndex := q.expandedIndex + 1 }
          match q.getCurrentItemInfo with
          | some next =>
              (q.startActionAt q.expandedIndex, result,
                completionEvents
                  ++ openingEvents { next with action := next.action.start }
                      q.expandedIndex
                  ++ [.queueChange])
          | none =>
              ({ q with state := .complete }, result,
                completionEvents ++ [.queueComplete, .queueChange])
        else
          (q, result, [])

/-- Per-item contribution to `totalActions`: the `isGroupReference` branch
counts `item.group.size`, every other item counts 1. -/
def itemTotalCount : QueueItem → ℕ
  | .groupRef r => r.group.size
  | _ => 1

/-- JS `get totalActions()`: group references count as their group's size,
everything else (plain actions, repeat blocks, recursive references) as 1. -/
def totalActions (q : ActionQueue) : ℕ :=
  q.items.foldl (fun count item => count + itemTotalCount item) 0

end ActionQueue

/-! ### Helper definitions and lemmas -/

/-- Pre-phase entries emitted at one recursion depth (the pre-actions loop of
`RecursiveGroup.getExpandedActions`). -/
def preEntriesAt (g : RecursiveGroup) (depth : ℕ) : List RecursiveExpandedEntry :=
  g.preActions.enum.map fun p =>
    { action := p.2.clone, depth := depth, phase := Phase.pre,
      actionIndex := p.1, isBaseCase := false,
      isFirstAtDepth := decide (p.1 = 0), isLastAtDepth := false }

/-- Post-phase entries emitted at one recursion depth (the post-actions loop
of `RecursiveGroup.getExpandedActions`). -/
def postEntriesAt (g : RecursiveGroup) (depth : ℕ) (isBaseCase : Bool) :
    List RecursiveExpandedEntry :=
  g.postActions.enum.map fun p =>
    { action := p.2.clone, depth := depth, phase := Phase.post,
      actionIndex := p.1,
      isBaseCase := isBaseCase && decide (p.1 = 0),
      isFirstAtDepth := false,
      isLastAtDepth := decide (p.1 = g.postActions.length - 1) }

theorem getExpandedActions_eq_of_lt (g : RecursiveGroup) (depth : ℕ)
    (h : (depth : ℤ) < g.maxDepth) :
    g.getExpandedActions depth =
      preEntriesAt g depth
        ++ (if (depth : ℤ) = g.maxDepth - 1 then []
            else g.getExpandedActions (depth + 1))
        ++ postEntriesAt g depth (decide ((depth : ℤ) = g.maxDepth - 1)) := by
  rw [RecursiveGroup.getExpandedActions]
  rw [if_neg (by omega)]
  by_cases hb : (depth : ℤ) = g.maxDepth - 1
  · simp [preEntriesAt, postEntriesAt, hb]
  · simp [preEntriesAt, postEntriesAt, hb]

theorem rec_expansion_length_fuel (g : RecursiveGroup) :
    ∀ (fuel depth : ℕ), (g.maxDepth - (depth : ℤ)).toNat = fuel →
      (g.getExpandedActions depth).length = g.baseSize * fuel := by
  intro fuel
  induction fuel using Nat.strong_induction_on with
  | _ fuel ih =>
    intro depth hfuel
    rw [RecursiveGroup.getExpandedActions]
    by_cases h : g.maxDepth ≤ (depth : ℤ)
    · rw [if_pos h]
      have hf : fuel = 0 := by omega
      subst hf
      simp
    · rw [if_neg h]
      by_cases hb : (depth : ℤ) = g.maxDepth - 1
      · have hf : fuel = 1 := by omega
        subst hf
        simp [hb, RecursiveGroup.baseSize]
      · have hnext : (g.maxDepth - ((depth + 1 : ℕ) : ℤ)).toNat = fuel - 1 := by
          push_cast
          omega
        have hrec := ih (fuel - 1) (by omega) (depth + 1) hnext
        obtain ⟨k, rfl⟩ : ∃ k, fuel = k + 1 := ⟨fuel - 1, by omega⟩
        simp [hb, hrec, RecursiveGroup.baseSize]
        ring

/-- Total length of the unrolled recursion at any starting depth. -/
theorem rec_expansion_length (g : RecursiveGroup) (depth : ℕ) :
    (g.getExpandedActions depth).length
      = g.baseSize * (g.maxDepth - (depth : ℤ)).toNat :=
  rec_expansion_length_fuel g _ depth rfl

/-! ### C8: setMaxDepth / setCount clamping -/

/-- C8: for every integer input (negative, zero, above the cap included),
`RecursiveGroup.setMaxDepth` stores the clamp of the input into [1, 5] and
`RepeatBlock.setCount` stores the clamp of the input into [1, 99]. -/
theorem setMaxDepth_setCount_clamp (g : RecursiveGroup) (d : ℤ)
    (b : RepeatBlock) (n : ℤ) :
    (g.setMaxDepth d).maxDepth = max 1 (min 5 d) ∧
    1 ≤ (g.setMaxDepth d).maxDepth ∧ (g.setMaxDepth d).maxDepth ≤ 5 ∧
    (b.setCount n).count = min (max 1 n) 99 ∧
    1 ≤ (b.setCount n).count ∧ (b.setCount n).count ≤ 99 := by
  refine ⟨rfl, ?_, ?_, rfl, ?_, ?_⟩ <;>
    simp only [RecursiveGroup.setMaxDepth, RepeatBlock.setCount,
      MAX_RECURSION_DEPTH, MAX_REPETITIONS, le_max_iff, max_le_iff,
      min_le_iff, le_min_iff] <;>
    omega

/-! ### C7: RepeatBlock.addItem item cap -/

/-- C7: `RepeatBlock.addItem` returns failure and leaves `items` unchanged
once `items` has MAX_ITEMS_IN_REPEAT = 2 entries (so `items` never grows past
2), and below the cap it appends a clone of the item and returns success. -/
theorem repeatBlock_addItem_cap (b : RepeatBlock) (item : RepeatItem) :
    (b.items.length ≥ MAX_ITEMS_IN_REPEAT → b.addItem item = (b, false)) ∧
    (b.items.length ≤ MAX_ITEMS_IN_REPEAT →
      (b.addItem item).1.items.length ≤ MAX_ITEMS_IN_REPEAT) ∧
    (b.items.length < MAX_ITEMS_IN_REPEAT →
      (b.addItem item).1.items = b.items ++ [item.clone] ∧
      (b.addItem item).2 = true) := by
  refine ⟨fun h => ?_, fun h => ?_, fun h => ?_⟩
  · simp [RepeatBlock.addItem, h]
  · by_cases hlt : b.items.length ≥ MAX_ITEMS_IN_REPEAT
    · simp [RepeatBlock.addItem, hlt]
      omega
    · simp only [RepeatBlock.addItem, if_neg hlt]
      simp [MAX_ITEMS_IN_REPEAT] at hlt ⊢
      omega
  · constructor <;> simp [RepeatBlock.addItem, Nat.not_le.mpr h]

/-- Concrete instantiation of `repeatBlock_addItem_cap`: a block holding two
items rejects a third, and an empty block accepts an item. -/
theorem repeatBlock_addItem_cap_witness :
    (let b2 : RepeatBlock :=
      { count := 2, items := [.act (Action.make .moveUp),
                              .act (Action.make .moveDown)] }
     b2.addItem (.act (Action.make .moveLeft)) = (b2, false)) ∧
    (let b0 : RepeatBlock := { count := 2, items := [] }
     (b0.addItem (.act (Action.make .moveLeft))).1.items
        = [.act (Action.make .moveLeft)] ∧
     (b0.addItem (.act (Action.make .moveLeft))).2 = true) := by
  constructor
  · exact (repeatBlock_addItem_cap _ _).1 (by decide)
  · exact (repeatBlock_addItem_cap { count := 2, items := [] } _).2.2 (by decide)

/-! ### C1: RecursiveGroup expansion -/

/-- The recursive group of end-to-end scenario C:
`pre = [Right], post = [Down], maxDepth = 2`. -/
def scenarioCGroup : RecursiveGroup :=
  { preActions := [Action.make .moveRight],
    postActions := [Action.make .moveDown],
    maxDepth := 2 }

/-- C1: at every depth below `maxDepth` the recursive expansion is
`pre(depth) ++ recurse(depth+1) ++ post(depth)` with the recursive part
dropped exactly at the base case `depth = maxDepth - 1`; at
`depth ≥ maxDepth` it is empty; the total expansion from depth 0 has length
`(|preActions| + |postActions|) * maxDepth`; and scenario C
(`pre=[Right], post=[Down], maxDepth=2`) expands to exactly
`[Right(d0,pre), Right(d1,pre), Down(d1,post,isBaseCase), Down(d0,post)]`. -/
theorem recursiveGroup_getExpandedActions_correct :
    (∀ (g : RecursiveGroup) (depth : ℕ),
      g.maxDepth ≤ (depth : ℤ) → g.getExpandedActions depth = []) ∧
    (∀ (g : RecursiveGroup) (depth : ℕ), (depth : ℤ) < g.maxDepth →
      g.getExpandedActions depth =
        preEntriesAt g depth
          ++ (if (depth : ℤ) = g.maxDepth - 1 then []
              else g.getExpandedActions (depth + 1))
          ++ postEntriesAt g depth (decide ((depth : ℤ) = g.maxDepth - 1))) ∧
    (∀ g : RecursiveGroup, (g.getExpandedActions 0).length
        = (g.preActions.length + g.postActions.length) * g.maxDepth.toNat) ∧
    (scenarioCGroup.getExpandedActions 0 =
      [{ action := Action.make .moveRight, depth := 0, phase := .pre,
         actionIndex := 0, isBaseCase := false, isFirstAtDepth := true,
         isLastAtDepth := false },
       { action := Action.make .moveRight, depth := 1, phase := .pre,
         actionIndex := 0, isBaseCase := false, isFirstAtDepth := true,
         isLastAtDepth := false },
       { action := Action.make .moveDown, depth := 1, phase := .post,
         actionIndex := 0, isBaseCase := true, isFirstAtDepth := false,
         isLastAtDepth := true },
       { action := Action.make .moveDown, depth := 0, phase := .post,
         actionIndex := 0, isBaseCase := false, isFirstAtDepth := false,
         isLastAtDepth := true }]) := by
  refine ⟨fun g depth h => ?_, getExpandedActions_eq_of_lt, fun g => ?_, ?_⟩
  · rw [RecursiveGroup.getExpandedActions, if_pos h]
  · have := rec_expansion_length g 0
    simp only [Nat.cast_zero, sub_zero, RecursiveGroup.baseSize] at this
    exact this
  · rw [getExpandedActions_eq_of_lt _ _ (by simp [scenarioCGroup]),
        getExpandedActions_eq_of_lt _ _ (by simp [scenarioCGroup])]
    simp [scenarioCGroup, preEntriesAt, postEntriesAt, Action.clone, Action.make]

/-- Concrete instantiation of `recursiveGroup_getExpandedActions_correct`:
the expansion of scenario C's group is empty at depth 2 = maxDepth. -/
theorem recursiveGroup_getExpandedActions_correct_witness :
    scenarioCGroup.maxDepth ≤ ((2 : ℕ) : ℤ) ∧
    scenarioCGroup.getExpandedActions 2 = [] :=
  ⟨by decide, recursiveGroup_getExpandedActions_correct.1 scenarioCGroup 2 (by decide)⟩

/-! ### C3: RepeatBlock expansion is iteration-major -/

theorem pairwise_flatMap_range {α : Type} (f : ℕ → List α) (g : α → ℕ)
    (h : ∀ i, ∀ x ∈ f i, g x = i) (n : ℕ) :
    ((List.range n).flatMap f).Pairwise (fun x y => g x ≤ g y) := by
  induction n with
  | zero => simp
  | succ n ih =>
    rw [List.range_succ, List.flatMap_append, List.pairwise_append]
    refine ⟨ih, ?_, ?_⟩
    · apply List.pairwise_of_forall_mem_list
      intro a ha b hb
      simp only [List.flatMap_cons, List.flatMap_nil, List.append_nil] at ha hb
      rw [h n a ha, h n b hb]
    · intro a ha b hb
      simp only [List.flatMap_cons, List.flatMap_nil, List.append_nil] at hb
      obtain ⟨i, hi, hai⟩ := List.mem_flatMap.mp ha
      rw [h i a hai, h n b hb]
      exact (List.mem_range.mp hi).le

/-- The queue of end-to-end scenario B: a repeat block with
`count = 3, items = [Right]` placed alone in the queue. -/
def scenarioBQueue : ActionQueue :=
  { maxSize := 50,
    items := [.repeatBlock { count := 3, items := [.act (Action.make .moveRight)] }] }

/-- C3: repeat expansion is iteration-major, item-minor — in every repeat
block's expansion the iteration indices are non-decreasing (all of iteration
0 before any of iteration 1); and scenario B (`count=3, items=[Right]` alone
in a queue) expands to exactly 3 steps, all `isFromRepeat`, with iterations
0,1,2 in order, `isFirstInRepeat` only on index 0 and `isLastInRepeat` only
on index 2. -/
theorem repeatBlock_expansion_iteration_major :
    (∀ b : RepeatBlock,
      (b.getExpandedActions).Pairwise fun x y => x.iteration ≤ y.iteration) ∧
    ((scenarioBQueue.expandItems).expandedActions.length = 3 ∧
     (scenarioBQueue.expandItems).expandedActions.map ExpandedStep.isFromRepeat
        = [true, true, true] ∧
     (scenarioBQueue.expandItems).expandedActions.map ExpandedStep.iteration
        = [0, 1, 2] ∧
     (scenarioBQueue.expandItems).expandedActions.map ExpandedStep.isFirstInRepeat
        = [true, false, false] ∧
     (scenarioBQueue.expandItems).expandedActions.map ExpandedStep.isLastInRepeat
        = [false, false, true]) := by
  constructor
  · intro b
    apply pairwise_flatMap_range
    intro i x hx
    simp only [List.mem_flatMap, List.mem_map] at hx
    obtain ⟨item, _, a, _, rfl⟩ := hx
    rfl
  · decide

/-! ### C6: pause/resume does not disturb playback -/

/-- C6: for every queue in any state, `pause()` then `resume()` with no
`update()` in between leaves the cursor, the expanded steps (hence the
current action's progress), and the items unchanged, fires no callbacks, and
changes the state only within the Running/Paused pair. -/
theorem pause_resume_noop (q : ActionQueue) :
    ((q.pause).1.resume).1.expandedIndex = q.expandedIndex ∧
    ((q.pause).1.resume).1.expandedActions = q.expandedActions ∧
    ((q.pause).1.resume).1.getCurrentAction = q.getCurrentAction ∧
    ((q.pause).1.resume).1.items = q.items ∧
    (q.pause).2 = [] ∧ ((q.pause).1.resume).2 = [] ∧
    ((q.pause).1.resume).1.state =
      (if q.state = .running ∨ q.state = .paused then .running else q.state) := by
  cases hq : q.state <;>
    simp [ActionQueue.pause, ActionQueue.resume, hq,
      ActionQueue.getCurrentAction, ActionQueue.getCurrentItemInfo]

/-! ### C2: end-to-end scenario A -/

/-- Update of a freshly started action by exactly its own duration: the
progress reaches 1, the action completes and stops executing. -/
theorem action_start_update_full (t : ActionType) (d : ℚ) (h : 0 < d) :
    (Action.make t d).start.update d =
      ({ type := t, duration := d, isExecuting := false, isComplete := true,
         progress := 1 }, easeInOutCubic 1) := by
  simp [Action.make, Action.start, Action.update, div_self h.ne']

/-- Recognizer for `onActionComplete` firings in the event log. -/
def isActionCompleteEvent : Event → Bool
  | .actionComplete _ _ => true
  | _ => false

/-- Recognizer for `onQueueComplete` firings in the event log. -/
def isQueueCompleteEvent : Event → Bool
  | .queueComplete => true
  | _ => false

/-- The queue of end-to-end scenario A: exactly the two plain actions
`[Up, Right]` with their configured durations. -/
def scenarioAQueue (d1 d2 : ℚ) : ActionQueue :=
  { maxSize := 50,
    items := [.act (Action.make .moveUp d1), .act (Action.make .moveRight d2)] }

/-- C2: for the queue `[Up, Right]`, after `start()` and a first
`update(d1)` with `d1` the Up action's duration, the cursor is 1 and points
at the Right step, and `onActionComplete` has fired exactly once, with the
Up action; after a second `update(d2)` with `d2` the Right action's
duration, the state is Complete and `onQueueComplete` has fired exactly
once. -/
theorem actionQueue_scenarioA (d1 d2 : ℚ) (h1 : 0 < d1) (h2 : 0 < d2) :
    (((scenarioAQueue d1 d2).start.1.update d1).1.expandedIndex = 1) ∧
    ((((scenarioAQueue d1 d2).start.1.update d1).1.getCurrentAction).map Action.type
        = some .moveRight) ∧
    (((scenarioAQueue d1 d2).start.2
        ++ ((scenarioAQueue d1 d2).start.1.update d1).2.2).filter isActionCompleteEvent
        = [.actionComplete .moveUp 0]) ∧
    ((((scenarioAQueue d1 d2).start.1.update d1).1.update d2).1.state = .complete) ∧
    (((scenarioAQueue d1 d2).start.2
        ++ ((scenarioAQueue d1 d2).start.1.update d1).2.2
        ++ (((scenarioAQueue d1 d2).start.1.update d1).1.update d2).2.2).filter
          isQueueCompleteEvent = [.queueComplete]) := by
  have hs : (scenarioAQueue d1 d2).start =
      ({ maxSize := 50,
         items := [.act (Action.make .moveUp d1), .act (Action.make .moveRight d2)],
         state := .running,
         expandedActions :=
           [{ action := (Action.make .moveUp d1).start, itemIndex := 0 },
            { action := Action.make .moveRight d2, itemIndex := 1 }],
         expandedIndex := 0 },
       [.actionStart .moveUp 0, .queueChange]) := rfl
  have hu1 : (scenarioAQueue d1 d2).start.1.update d1 =
      ({ maxSize := 50,
         items := [.act (Action.make .moveUp d1), .act (Action.make .moveRight d2)],
         state := .running,
         expandedActions :=
           [{ action := { type := .moveUp, duration := d1, isExecuting := false,
                          isComplete := true, progress := 1 }, itemIndex := 0 },
            { action := (Action.make .moveRight d2).start, itemIndex := 1 }],
         expandedIndex := 1 },
       { action := some { type := .moveUp, duration := d1, isExecuting := false,
                          isComplete := true, progress := 1 },
         progress := easeInOutCubic 1, direction := (0, -1),
         actionComplete := true },
       [.actionComplete .moveUp 0, .actionStart .moveRight 1, .queueChange]) := by
    rw [hs]
    rw [ActionQueue.update]
    simp only [ActionQueue.getCurrentItemInfo, List.get?]
    simp only [action_start_update_full _ _ h1]
    simp [ActionQueue.startActionAt, ActionQueue.openingEvents,
      ActionQueue.closingEvents, Action.make, Action.start, Action.getDirection,
      DirectionVectors]
  have hu2 : ((scenarioAQueue d1 d2).start.1.update d1).1.update d2 =
      ({ maxSize := 50,
         items := [.act (Action.make .moveUp d1), .act (Action.make .moveRight d2)],
         state := .complete,
         expandedActions :=
           [{ action := { type := .moveUp, duration := d1, isExecuting := false,
                          isComplete := true, progress := 1 }, itemIndex := 0 },
            { action := { type := .moveRight, duration := d2, isExecuting := false,
                          isComplete := true, progress := 1 }, itemIndex := 1 }],
         expandedIndex := 2 },
       { action := some { type := .moveRight, duration := d2, isExecuting := false,
                          isComplete := true, progress := 1 },
         progress := easeInOutCubic 1, direction := (1, 0),
         actionComplete := true },
       [.actionComplete .moveRight 1, .queueComplete, .queueChange]) := by
    rw [hu1]
    rw [ActionQueue.update]
    simp only [ActionQueue.getCurrentItemInfo, List.get?]
    simp only [action_start_update_full _ _ h2]
    simp [ActionQueue.startActionAt, ActionQueue.openingEvents,
      ActionQueue.closingEvents, Action.make, Action.start, Action.getDirection,
      DirectionVectors]
  refine ⟨?_, ?_, ?_, ?_, ?_⟩
  · rw [hu1]
  · rw [hu1]
    simp [ActionQueue.getCurrentAction, ActionQueue.getCurrentItemInfo,
      Action.make, Action.start]
  · rw [hu1, hs]
    simp [isActionCompleteEvent]
  · rw [hu2]
  · rw [hu2, hu1, hs]
    simp [isQueueCompleteEvent]

/-- Concrete instantiation of `actionQueue_scenarioA` at the configured
duration (CONFIG.animation.actionDuration = 300). -/
theorem actionQueue_scenarioA_witness :
    (0 : ℚ) < 300 ∧
    ((scenarioAQueue 300 300).start.1.update 300).1.expandedIndex = 1 :=
  ⟨by norm_num, (actionQueue_scenarioA 300 300 (by norm_num) (by norm_num)).1⟩

/-! ### C4: mutation guards while Running -/

/-- C4 counterexample: on a running queue, `clear()` is not a rejected
no-op — it empties the (non-empty) items list. -/
theorem clear_while_running_not_rejected :
    (let q := (((ActionQueue.make 50).add (.act (Action.make .moveUp))).1.start).1
     q.state = QueueState.running ∧ q.items ≠ [] ∧ (q.clear).1.items = []) := by
  decide

/-- C4 (amended): while Running, `add` and `removeAt` are rejected and leave
the queue untouched, while `clear` stops the queue and then empties the
items; in Idle, Paused and Complete the mutators are allowed (`add` succeeds
exactly when the queue is not full, `removeAt` exactly on a valid index,
`clear` always empties). -/
theorem mutation_guards_amended :
    (∀ (q : ActionQueue) (item : QueueItem), q.state = .running →
      (q.add item).1 = q ∧ (q.add item).2.1 = false) ∧
    (∀ (q : ActionQueue) (i : ℕ), q.state = .running →
      (q.removeAt i).1 = q ∧ (q.removeAt i).2.1 = none) ∧
    (∀ q : ActionQueue, q.state = .running →
      (q.clear).1.items = [] ∧ (q.clear).1.state = .idle) ∧
    (∀ (q : ActionQueue) (item : QueueItem), q.state ≠ .running →
      ((q.add item).2.1 = true ↔ q.items.length < q.maxSize)) ∧
    (∀ (q : ActionQueue) (i : ℕ), q.state ≠ .running →
      (((q.removeAt i).2.1).isSome ↔ i < q.items.length)) ∧
    (∀ q : ActionQueue, q.state ≠ .running → (q.clear).1.items = []) := by
  refine ⟨fun q item h => ?_, fun q i h => ?_, fun q h => ?_,
    fun q item h => ?_, fun q i h => ?_, fun q h => ?_⟩
  · by_cases hfull : q.items.length ≥ q.maxSize <;>
      simp [ActionQueue.add, hfull, h]
  · simp [ActionQueue.removeAt, h]
  · simp [ActionQueue.clear]
  · by_cases hfull : q.items.length ≥ q.maxSize <;>
      simp [ActionQueue.add, hfull, h]
    omega
  · rw [ActionQueue.removeAt, if_neg h]
    cases hgi : q.items.get? i with
    | none =>
        have hlen := List.get?_eq_none.mp hgi
        simp [hgi]
        omega
    | some removed =>
        have hlt : i < q.items.length := by
          by_contra hc
          rw [List.get?_eq_none.mpr (by omega)] at hgi
          exact Option.noConfusion hgi
        simp [hgi, hlt]
  · rfl

/-- Concrete instantiation of `mutation_guards_amended`: a running queue
rejects `add`. -/
theorem mutation_guards_amended_witness :
    (let q := (((ActionQueue.make 50).add (.act (Action.make .moveUp))).1.start).1
     q.state = QueueState.running ∧
     (q.add (.act (Action.make .moveDown))).2.1 = false) :=
  ⟨by decide, (mutation_guards_amended.1 _ (.act (Action.make .moveDown))
    (by decide)).2⟩

/-! ### C9: update completes at most one action per call -/

theorem countP_closingEvents (info : ExpandedStep) :
    (ActionQueue.closingEvents info).countP isActionCompleteEvent = 0 := by
  rw [ActionQueue.closingEvents]
  split_ifs <;> simp [isActionCompleteEvent]

theorem countP_openingEvents (info : ExpandedStep) (index : ℕ) :
    (ActionQueue.openingEvents info index).countP isActionCompleteEvent = 0 := by
  rw [ActionQueue.openingEvents]
  split_ifs <;> simp [isActionCompleteEvent]

/-- C9: one `update(deltaTime)` call advances `expandedIndex` by at most one
and fires `onActionComplete` at most once, for every `deltaTime`; and when
the cursor did advance, the new current action (if any) has progress 0 and
is freshly executing — surplus time is never carried into the next action's
progress. -/
theorem startActionAt_expandedIndex (q : ActionQueue) (i : ℕ) :
    (q.startActionAt i).expandedIndex = q.expandedIndex := by
  rw [ActionQueue.startActionAt]
  cases h : q.expandedActions.get? i <;> rfl

theorem startActionAt_get_self (q : ActionQueue) (i : ℕ) (next : ExpandedStep)
    (h : q.expandedActions.get? i = some next) :
    (q.startActionAt i).expandedActions.get? i
      = some { next with action := next.action.start } := by
  rw [ActionQueue.startActionAt, h]
  simp only [List.get?_set_eq, h, Option.map_eq_map, Option.map_some']

theorem update_single_step (q : ActionQueue) (deltaTime : ℚ) :
    q.expandedIndex ≤ (q.update deltaTime).1.expandedIndex ∧
    (q.update deltaTime).1.expandedIndex ≤ q.expandedIndex + 1 ∧
    ((q.update deltaTime).2.2.countP isActionCompleteEvent ≤ 1) ∧
    ((q.update deltaTime).1.expandedIndex = q.expandedIndex + 1 →
      ∀ step, (q.update deltaTime).1.expandedActions.get?
          (q.update deltaTime).1.expandedIndex = some step →
        step.action.progress = 0 ∧ step.action.isExecuting = true) := by
  rw [ActionQueue.update]
  split
  · exact ⟨le_refl _, Nat.le_succ _, by simp,
      fun h => absurd h.symm (Nat.succ_ne_self _)⟩
  · split
    · exact ⟨le_refl _, Nat.le_succ _, by simp [isActionCompleteEvent],
        fun h => absurd h.symm (Nat.succ_ne_self _)⟩
    · rename_i info heq
      dsimp only
      split
      · split
        · rename_i hcomp x next hnexteq
          rw [ActionQueue.getCurrentItemInfo] at hnexteq
          refine ⟨?_, ?_, ?_, ?_⟩
          · rw [startActionAt_expandedIndex]
            exact Nat.le_succ _
          · rw [startActionAt_expandedIndex]
          · simp [List.countP_append, countP_closingEvents, countP_openingEvents,
              isActionCompleteEvent]
          · intro _ step hstep
            rw [startActionAt_expandedIndex, ActionQueue.startActionAt, hnexteq]
              at hstep
            simp only [List.get?_set_eq, hnexteq, Option.map_eq_map,
              Option.map_some'] at hstep
            injection hstep with h4
            subst h4
            exact ⟨rfl, rfl⟩
        · rename_i hcomp x hnexteq
          refine ⟨Nat.le_succ _, le_refl _, ?_, ?_⟩
          · simp [List.countP_append, countP_closingEvents, isActionCompleteEvent]
          · intro _ step hstep
            have h2 :
                ((q.expandedActions.set q.expandedIndex
                  { info with action := (info.action.update deltaTime).1 }).get?
                    (q.expandedIndex + 1)) = none := hnexteq
            exact Option.noConfusion (h2.symm.trans hstep)
      · exact ⟨le_refl _, Nat.le_succ _, by simp,
          fun h => absurd h.symm (Nat.succ_ne_self _)⟩

/-- Concrete instantiation of `update_single_step`: scenario A's first frame
advances the cursor by at most one. -/
theorem update_single_step_witness :
    ((scenarioAQueue 300 300).start.1.update 300).1.expandedIndex ≤
      (scenarioAQueue 300 300).start.1.expandedIndex + 1 :=
  (update_single_step (scenarioAQueue 300 300).start.1 300).2.1

/-! ### C5: cursor range and completion invariant -/

/-- One user-level operation on the queue (playback controls and mutators). -/
inductive QueueOp
  | add (item : QueueItem)
  | removeAt (index : ℕ)
  | clear
  | start
  | update (deltaTime : ℚ)
  | pause
  | resume
  | stop
  | reset

/-- Apply one operation, discarding returned values and events. -/
def applyOp (q : ActionQueue) : QueueOp → ActionQueue
  | .add item => (q.add item).1
  | .removeAt i => (q.removeAt i).1
  | .clear => (q.clear).1
  | .start => (q.start).1
  | .update d => (q.update d).1
  | .pause => (q.pause).1
  | .resume => (q.resume).1
  | .stop => q.stop
  | .reset => q.reset

/-- Apply a whole operation sequence. -/
def applyOps (q : ActionQueue) (ops : List QueueOp) : ActionQueue :=
  ops.foldl applyOp q

/-- Apply one operation, but let `start` act only when the state is Idle or
Complete (the discipline under which the cursor invariant holds). -/
def guardedOp (q : ActionQueue) (op : QueueOp) : ActionQueue :=
  match op with
  | .start => if q.state = .idle ∨ q.state = .complete then applyOp q .start
              else q
  | _ => applyOp q op

/-- Apply a whole operation sequence with guarded starts. -/
def applyGuarded (q : ActionQueue) (ops : List QueueOp) : ActionQueue :=
  ops.foldl guardedOp q

/-- The three-action queue used to overshoot the cursor. -/
def threeQueue : ActionQueue :=
  { maxSize := 50,
    items := [.act (Action.make .moveUp 300), .act (Action.make .moveRight 300),
              .act (Action.make .moveDown 300)] }

/-- C5 counterexample: (a) after a queue holding one action is successfully
started, `stop()` leaves `expandedIndex = expandedActions.length` (both zero)
with state Idle, not Complete — refuting the claimed equivalence; (b) running
a three-action queue two steps forward, pausing, removing two items and
calling `start()` again leaves `expandedIndex = 2` beyond
`expandedActions.length = 1` — refuting the claimed range. -/
theorem cursor_invariant_counterexample :
    ((applyOps (ActionQueue.make 50)
        [.add (.act (Action.make .moveUp 300)), .start]).state
          = QueueState.running ∧
     (applyOps (ActionQueue.make 50)
        [.add (.act (Action.make .moveUp 300)), .start, .stop]).expandedIndex =
       (applyOps (ActionQueue.make 50)
        [.add (.act (Action.make .moveUp 300)), .start, .stop]).expandedActions.length ∧
     (applyOps (ActionQueue.make 50)
        [.add (.act (Action.make .moveUp 300)), .start, .stop]).state
          ≠ QueueState.complete) ∧
    (let qF := applyOps ((threeQueue.start.1.update 300).1.update 300).1
        [.pause, .removeAt 2, .removeAt 1, .start]
     threeQueue.start.1.state = QueueState.running ∧
     qF.expandedIndex = 2 ∧ qF.expandedActions.length = 1) := by
  constructor
  · decide
  · have hu1 : threeQueue.start.1.update 300 =
        ({ maxSize := 50,
           items := [.act (Action.make .moveUp 300), .act (Action.make .moveRight 300),
                     .act (Action.make .moveDown 300)],
           state := .running,
           expandedActions :=
             [{ action := { type := .moveUp, duration := 300, isExecuting := false,
                            isComplete := true, progress := 1 }, itemIndex := 0 },
              { action := (Action.make .moveRight 300).start, itemIndex := 1 },
              { action := Action.make .moveDown 300, itemIndex := 2 }],
           expandedIndex := 1 },
         { action := some { type := .moveUp, duration := 300, isExecuting := false,
                            isComplete := true, progress := 1 },
           progress := easeInOutCubic 1, direction := (0, -1),
           actionComplete := true },
         [.actionComplete .moveUp 0, .actionStart .moveRight 1, .queueChange]) := by
      have hs : threeQueue.start.1 =
          { maxSize := 50,
            items := [.act (Action.make .moveUp 300), .act (Action.make .moveRight 300),
                      .act (Action.make .moveDown 300)],
            state := .running,
            expandedActions :=
              [{ action := (Action.make .moveUp 300).start, itemIndex := 0 },
               { action := Action.make .moveRight 300, itemIndex := 1 },
               { action := Action.make .moveDown 300, itemIndex := 2 }],
            expandedIndex := 0 } := rfl
      rw [hs]
      rw [ActionQueue.update]
      simp only [ActionQueue.getCurrentItemInfo, List.get?]
      simp only [action_start_update_full _ _ (by norm_num : (0:ℚ) < 300)]
      simp [ActionQueue.startActionAt, ActionQueue.openingEvents,
        ActionQueue.closingEvents, Action.make, Action.start, Action.getDirection,
        DirectionVectors, actionDurationDefault]
    have hu2 : ((threeQueue.start.1.update 300).1.update 300).1 =
        { maxSize := 50,
          items := [.act (Action.make .moveUp 300), .act (Action.make .moveRight 300),
                    .act (Action.make .moveDown 300)],
          state := .running,
          expandedActions :=
            [{ action := { type := .moveUp, duration := 300, isExecuting := false,
                           isComplete := true, progress := 1 }, itemIndex := 0 },
             { action := { type := .moveRight, duration := 300, isExecuting := false,
                           isComplete := true, progress := 1 }, itemIndex := 1 },
             { action := (Action.make .moveDown 300).start, itemIndex := 2 }],
          expandedIndex := 2 } := by
      rw [hu1]
      rw [ActionQueue.update]
      simp only [ActionQueue.getCurrentItemInfo, List.get?]
      simp only [action_start_update_full _ _ (by norm_num : (0:ℚ) < 300)]
      simp [ActionQueue.startActionAt, ActionQueue.openingEvents,
        ActionQueue.closingEvents, Action.make, Action.start, Action.getDirection,
        DirectionVectors, actionDurationDefault]
    refine ⟨rfl, ?_, ?_⟩ <;> rw [hu2] <;> rfl

/-- State of `startActionAt` is untouched. -/
theorem startActionAt_state (q : ActionQueue) (i : ℕ) :
    (q.startActionAt i).state = q.state := by
  rw [ActionQueue.startActionAt]
  cases h : q.expandedActions.get? i <;> rfl

/-- Length of the expansion is untouched by `startActionAt`. -/
theorem startActionAt_length (q : ActionQueue) (i : ℕ) :
    (q.startActionAt i).expandedActions.length
      = q.expandedActions.length := by
  rw [ActionQueue.startActionAt]
  cases h : q.expandedActions.get? i
  · rfl
  · simp [List.length_set]

/-- The cursor invariant maintained by the guarded operational semantics:
Idle states carry a zeroed cursor and an empty expansion, Running and Paused
states keep the cursor strictly inside the expansion, and Complete states
pin the cursor to the expansion length. -/
def CursorInv (q : ActionQueue) : Prop :=
  (q.state = .idle → q.expandedIndex = 0 ∧ q.expandedActions = []) ∧
  ((q.state = .running ∨ q.state = .paused) →
    q.expandedIndex < q.expandedActions.length) ∧
  (q.state = .complete → q.expandedIndex = q.expandedActions.length)

theorem cursorInv_start (q : ActionQueue) (h : CursorInv q)
    (hsel : q.state = .idle ∨ q.state = .complete) :
    CursorInv (q.start).1 := by
  obtain ⟨hidle, hrun, hcomp⟩ := h
  rw [ActionQueue.start]
  split
  · exact ⟨hidle, hrun, hcomp⟩
  · set qr := if q.state = .complete then q.reset else q with hqr
    have h0 : qr.expandedIndex = 0 := by
      rw [hqr]
      split
      · rfl
      · rename_i hnc
        rcases hsel with hst | hst
        · exact (hidle hst).1
        · exact absurd hst hnc
    have hstq : qr.state = .idle := by
      rw [hqr]
      split
      · rfl
      · rename_i hnc
        rcases hsel with hst | hst
        · exact hst
        · exact absurd hst hnc
    dsimp only
    split
    · rename_i hlen
      refine ⟨fun _ => ⟨h0, List.length_eq_zero.mp hlen⟩, fun hor => ?_,
        fun hco => ?_⟩
      · have hor2 : qr.state = .running ∨ qr.state = .paused := hor
        rw [hstq] at hor2
        rcases hor2 with hor2 | hor2 <;> exact QueueState.noConfusion hor2
      · have hco2 : qr.state = .complete := hco
        rw [hstq] at hco2
        exact QueueState.noConfusion hco2
    · rename_i hlen
      split
      · rename_i info heq
        refine ⟨fun hi => ?_, fun _ => ?_, fun hco => ?_⟩
        · rw [startActionAt_state] at hi
          have hi2 : QueueState.running = QueueState.idle := hi
          exact QueueState.noConfusion hi2
        · rw [startActionAt_expandedIndex, startActionAt_length]
          have h2 : (qr.expandItems).expandedActions.get? qr.expandedIndex
              = some info := heq
          obtain ⟨hh, _⟩ := List.get?_eq_some.mp h2
          exact hh
        · rw [startActionAt_state] at hco
          have hco2 : QueueState.running = QueueState.complete := hco
          exact QueueState.noConfusion hco2
      · rename_i heq
        exfalso
        have h2 : (qr.expandItems).expandedActions.get? qr.expandedIndex
            = none := heq
        have hge := List.get?_eq_none.mp h2
        have hlen2 : (qr.expandItems).expandedActions.length ≠ 0 := hlen
        omega

theorem cursorInv_guardedOp (q : ActionQueue) (op : QueueOp)
    (h : CursorInv q) : CursorInv (guardedOp q op) := by
  obtain ⟨hidle, hrun, hcomp⟩ := h
  cases op with
  | add item =>
      show CursorInv (q.add item).1
      rw [ActionQueue.add]
      split
      · exact ⟨hidle, hrun, hcomp⟩
      · split
        · exact ⟨hidle, hrun, hcomp⟩
        · exact ⟨hidle, hrun, hcomp⟩
  | removeAt i =>
      show CursorInv (q.removeAt i).1
      rw [ActionQueue.removeAt]
      split
      · exact ⟨hidle, hrun, hcomp⟩
      · split
        · exact ⟨hidle, hrun, hcomp⟩
        · exact ⟨hidle, hrun, hcomp⟩
  | clear =>
      show CursorInv (q.clear).1
      exact ⟨fun _ => ⟨rfl, rfl⟩,
        fun hor => by rcases hor with hor | hor <;> exact QueueState.noConfusion hor,
        fun hco => QueueState.noConfusion hco⟩
  | stop =>
      show CursorInv q.stop
      exact ⟨fun _ => ⟨rfl, rfl⟩,
        fun hor => by rcases hor with hor | hor <;> exact QueueState.noConfusion hor,
        fun hco => QueueState.noConfusion hco⟩
  | reset =>
      show CursorInv q.reset
      exact ⟨fun _ => ⟨rfl, rfl⟩,
        fun hor => by rcases hor with hor | hor <;> exact QueueState.noConfusion hor,
        fun hco => QueueState.noConfusion hco⟩
  | pause =>
      show CursorInv (q.pause).1
      rw [ActionQueue.pause]
      split
      · rename_i hst
        refine ⟨fun hi => QueueState.noConfusion hi, fun _ => ?_,
          fun hco => QueueState.noConfusion hco⟩
        exact hrun (Or.inl hst)
      · exact ⟨hidle, hrun, hcomp⟩
  | resume =>
      show CursorInv (q.resume).1
      rw [ActionQueue.resume]
      split
      · rename_i hst
        refine ⟨fun hi => QueueState.noConfusion hi, fun _ => ?_,
          fun hco => QueueState.noConfusion hco⟩
        exact hrun (Or.inr hst)
      · exact ⟨hidle, hrun, hcomp⟩
  | start =>
      rw [guardedOp]
      split
      · rename_i hsel
        exact cursorInv_start q ⟨hidle, hrun, hcomp⟩ hsel
      · exact ⟨hidle, hrun, hcomp⟩
  | update d =>
      show CursorInv (q.update d).1
      rw [ActionQueue.update]
      split
      · exact ⟨hidle, hrun, hcomp⟩
      · rename_i hst
        have hrunning : q.state = .running := not_ne_iff.mp hst
        have hlt : q.expandedIndex < q.expandedActions.length :=
          hrun (Or.inl hrunning)
        split
        · rename_i heq
          exfalso
          have h2 : q.expandedActions.get? q.expandedIndex = none := heq
          have := List.get?_eq_none.mp h2
          omega
        · rename_i info heq
          dsimp only
          split
          · split
            · rename_i hcompl x next hnexteq
              rw [ActionQueue.getCurrentItemInfo] at hnexteq
              have hlt2 : q.expandedIndex + 1 <
                  q.expandedActions.length := by
                obtain ⟨hh, _⟩ := List.get?_eq_some.mp hnexteq
                rw [List.length_set] at hh
                exact hh
              refine ⟨?_, ?_, ?_⟩
              · intro hi
                rw [startActionAt_state] at hi
                have : q.state = .idle := hi
                rw [hrunning] at this
                exact QueueState.noConfusion this
              · intro _
                rw [startActionAt_expandedIndex, startActionAt_length]
                show q.expandedIndex + 1 <
                  (q.expandedActions.set q.expandedIndex _).length
                rw [List.length_set]
                exact hlt2
              · intro hco
                rw [startActionAt_state] at hco
                have : q.state = .complete := hco
                rw [hrunning] at this
                exact QueueState.noConfusion this
            · rename_i hcompl x hnexteq
              rw [ActionQueue.getCurrentItemInfo] at hnexteq
              have hge := List.get?_eq_none.mp hnexteq
              rw [List.length_set] at hge
              have hge2 : q.expandedActions.length ≤ q.expandedIndex + 1 := hge
              refine ⟨fun hi => QueueState.noConfusion hi,
                fun hor => by
                  rcases hor with hor | hor <;> exact QueueState.noConfusion hor,
                fun _ => ?_⟩
              show q.expandedIndex + 1 =
                (q.expandedActions.set q.expandedIndex _).length
              rw [List.length_set]
              omega
          · refine ⟨?_, fun _ => ?_, ?_⟩
            · intro hi
              have : q.state = .idle := hi
              rw [hrunning] at this
              exact QueueState.noConfusion this
            · show q.expandedIndex <
                (q.expandedActions.set q.expandedIndex _).length
              rw [List.length_set]
              exact hlt
            · intro hco
              have : q.state = .complete := hco
              rw [hrunning] at this
              exact QueueState.noConfusion this

theorem cursorInv_applyGuarded (ops : List QueueOp) :
    ∀ q : ActionQueue, CursorInv q → CursorInv (applyGuarded q ops) := by
  induction ops with
  | nil => exact fun q h => h
  | cons op ops ih => exact fun q h => ih _ (cursorInv_guardedOp q op h)

/-- C5 (amended): from a fresh queue, under any operation sequence in which
`start()` acts only while the state is Idle or Complete, `expandedIndex`
stays in `[0, expandedActions.length]`, and whenever the state is Running or
Complete, the state is Complete exactly when `expandedIndex` equals
`expandedActions.length`.  (As stated the claim fails: `stop`/`reset`/`clear`
empty the expansion leaving the cursor equal to its length in an Idle state,
and `start()` invoked while Paused after removals can push the cursor past
the expansion length.) -/
theorem cursor_invariant_guarded (ops : List QueueOp) (maxSize : ℕ) :
    (applyGuarded (ActionQueue.make maxSize) ops).expandedIndex ≤
      (applyGuarded (ActionQueue.make maxSize) ops).expandedActions.length ∧
    ((applyGuarded (ActionQueue.make maxSize) ops).state = .running ∨
      (applyGuarded (ActionQueue.make maxSize) ops).state = .complete →
      ((applyGuarded (ActionQueue.make maxSize) ops).state = .complete ↔
        (applyGuarded (ActionQueue.make maxSize) ops).expandedIndex =
          (applyGuarded (ActionQueue.make maxSize) ops).expandedActions.length)) := by
  have h := cursorInv_applyGuarded ops (ActionQueue.make maxSize)
    ⟨fun _ => ⟨rfl, rfl⟩,
     fun hor => by
       rcases hor with hor | hor <;> exact QueueState.noConfusion hor,
     fun hco => QueueState.noConfusion hco⟩
  obtain ⟨hidle, hrun, hcomp⟩ := h
  constructor
  · cases hst : (applyGuarded (ActionQueue.make maxSize) ops).state
    · rw [(hidle hst).1, (hidle hst).2]
      exact Nat.zero_le _
    · exact le_of_lt (hrun (Or.inl hst))
    · exact le_of_lt (hrun (Or.inr hst))
    · exact le_of_eq (hcomp hst)
  · intro hor
    rcases hor with hst | hst
    · constructor
      · intro hco
        rw [hst] at hco
        exact QueueState.noConfusion hco
      · intro heq
        exfalso
        have := hrun (Or.inl hst)
        omega
    · exact ⟨fun _ => hcomp hst, fun _ => hst⟩

/-- Concrete instantiation of `cursor_invariant_guarded` on a short guarded
trace. -/
theorem cursor_invariant_guarded_witness :
    (applyGuarded (ActionQueue.make 50)
        [.add (.act (Action.make .moveUp)), .start]).expandedIndex ≤
      (applyGuarded (ActionQueue.make 50)
        [.add (.act (Action.make .moveUp)), .start]).expandedActions.length :=
  (cursor_invariant_guarded [.add (.act (Action.make .moveUp)), .start] 50).1

/-! ### C10: totalActions versus expansion length -/

/-- Length of one item's expansion, itemized. -/
def itemExpandedLength : QueueItem → ℕ
  | .repeatBlock b => (b.getExpandedActions).length
  | .groupRef r => (r.getActions).length
  | .recursiveRef r => (r.getExpandedActions).length
  | .act _ => 1

theorem expandItem_length (i : ℕ) (it : QueueItem) :
    (ActionQueue.expandItem i it).length = itemExpandedLength it := by
  cases it <;>
    simp [ActionQueue.expandItem, ActionQueue.expandRepeatItem,
      ActionQueue.expandGroupItem, ActionQueue.expandRecursiveItem,
      itemExpandedLength, List.enum_length, RecursiveReference.getExpandedActions,
      GroupReference.getActions]

theorem map_enumFrom_congr {α β : Type} (g : ℕ → α → β) (c : α → β)
    (h : ∀ i x, g i x = c x) :
    ∀ (n : ℕ) (l : List α),
      (List.enumFrom n l).map (fun p => g p.1 p.2) = l.map c := by
  intro n l
  induction l generalizing n with
  | nil => rfl
  | cons x xs ih =>
      rw [show List.enumFrom n (x :: xs) = (n, x) :: List.enumFrom (n + 1) xs
        from rfl, List.map_cons, List.map_cons, h, ih]

theorem foldl_add_map_sum {α : Type} (f : α → ℕ) :
    ∀ (l : List α) (n : ℕ),
      l.foldl (fun c x => c + f x) n = n + (l.map f).sum := by
  intro l
  induction l with
  | nil => simp
  | cons x xs ih =>
      intro n
      simp only [List.foldl_cons, List.map_cons, List.sum_cons, ih]
      omega

theorem totalActions_eq_sum (q : ActionQueue) :
    q.totalActions = (q.items.map ActionQueue.itemTotalCount).sum := by
  rw [ActionQueue.totalActions, foldl_add_map_sum, Nat.zero_add]

theorem expandItems_length (q : ActionQueue) :
    (q.expandItems).expandedActions.length
      = (q.items.map itemExpandedLength).sum := by
  show (q.items.enum.flatMap fun p => ActionQueue.expandItem p.1 p.2).length = _
  rw [List.length_flatMap]
  congr 1
  show (List.enumFrom 0 q.items).map
      (fun p => ((fun p => ActionQueue.expandItem p.1 p.2) p).length) = _
  exact map_enumFrom_congr (fun i x => (ActionQueue.expandItem i x).length)
    itemExpandedLength expandItem_length 0 q.items

theorem sum_map_const_nat {α : Type} (g : α → ℕ) (c : ℕ) :
    ∀ l : List α, (∀ x ∈ l, g x = c) → (l.map g).sum = l.length * c := by
  intro l
  induction l with
  | nil => simp
  | cons x xs ih =>
      intro h
      simp only [List.map_cons, List.sum_cons, List.length_cons,
        h x (List.mem_cons_self x xs), ih fun z hz => h z (List.mem_cons_of_mem x hz)]
      ring

/-- Length of a repeat block's expansion: count times the summed length of
one iteration. -/
theorem repeat_expansion_length (b : RepeatBlock) :
    (b.getExpandedActions).length =
      b.count.toNat *
        (b.items.map fun it => (RepeatBlock.expandOne it).length).sum := by
  rw [RepeatBlock.getExpandedActions, List.length_flatMap]
  rw [sum_map_const_nat _
    ((b.items.map fun it => (RepeatBlock.expandOne it).length).sum)
    (List.range b.count.toNat) ?_]
  · rw [List.length_range]
  · intro i _
    simp [List.length_flatMap, Function.comp_def]

theorem sum_lt_sum_of_le_of_lt {α : Type} (f g : α → ℕ) :
    ∀ l : List α, (∀ x ∈ l, f x ≤ g x) → (∃ x ∈ l, f x < g x) →
      (l.map f).sum < (l.map g).sum := by
  intro l
  induction l with
  | nil =>
      rintro _ ⟨x, hx, _⟩
      cases hx
  | cons y ys ih =>
      rintro hle ⟨x, hx, hlt⟩
      simp only [List.map_cons, List.sum_cons]
      have hys : (ys.map f).sum ≤ (ys.map g).sum :=
        List.sum_le_sum fun z hz => hle z (List.mem_cons_of_mem y hz)
      rcases List.mem_cons.mp hx with rfl | hx2
      · have hy := hlt
        omega
      · have hy : f y ≤ g y := hle y (List.mem_cons_self y ys)
        have := ih (fun z hz => hle z (List.mem_cons_of_mem y hz)) ⟨x, hx2, hlt⟩
        omega

/-- The structural conditions under which an item's expansion is at least as
long as its `totalActions` contribution: repeat blocks have a positive count,
at least one item, and only non-empty groups inside; recursive references
point at a group with positive depth and a non-empty action list. -/
def wellFormedItem : QueueItem → Bool
  | .repeatBlock b =>
      decide (1 ≤ b.count) && !b.items.isEmpty &&
        b.items.all fun ri =>
          match ri with
          | .groupRef r => !r.group.actions.isEmpty
          | .act _ => true
  | .recursiveRef r =>
      decide (1 ≤ r.group.maxDepth) &&
        (!r.group.preActions.isEmpty || !r.group.postActions.isEmpty)
  | _ => true

/-- The items the claim singles out: a repeat block with `count > 1`, or a
recursive reference whose pre and post action lists are both non-empty. -/
def triggerItem : QueueItem → Bool
  | .repeatBlock b => decide (2 ≤ b.count)
  | .recursiveRef r =>
      !r.group.preActions.isEmpty && !r.group.postActions.isEmpty
  | _ => false

theorem expandOne_length_pos (ri : RepeatItem)
    (h : (match ri with
          | RepeatItem.groupRef r => !r.group.actions.isEmpty
          | RepeatItem.act _ => true) = true) :
    1 ≤ (RepeatBlock.expandOne ri).length := by
  cases ri with
  | act a => simp [RepeatBlock.expandOne]
  | groupRef r =>
      simp only [Bool.not_eq_true'] at h
      have hne : r.group.actions ≠ [] := by
        intro hnil
        rw [hnil] at h
        simp at h
      simp only [RepeatBlock.expandOne, GroupReference.getActions,
        ActionGroup.getActions, List.length_map]
      exact List.length_pos.mpr hne

theorem repeat_iteration_length_pos (b : RepeatBlock)
    (hne : b.items.isEmpty = false)
    (hall : ∀ ri ∈ b.items,
      (match ri with
       | RepeatItem.groupRef r => !r.group.actions.isEmpty
       | RepeatItem.act _ => true) = true) :
    1 ≤ (b.items.map fun it => (RepeatBlock.expandOne it).length).sum := by
  cases hbi : b.items with
  | nil => rw [hbi] at hne; simp at hne
  | cons y ys =>
      have h1 := expandOne_length_pos y
        (hall y (by rw [hbi]; exact List.mem_cons_self y ys))
      simp only [List.map_cons, List.sum_cons]
      omega

theorem recursive_expansion_length_eq (r : RecursiveReference) :
    (r.getExpandedActions).length
      = r.group.baseSize * r.group.maxDepth.toNat := by
  rw [RecursiveReference.getExpandedActions]
  have hlen := rec_expansion_length r.group 0
  simpa using hlen

theorem itemCount_le_expLen (it : QueueItem) (h : wellFormedItem it = true) :
    ActionQueue.itemTotalCount it ≤ itemExpandedLength it := by
  cases it with
  | act a => exact le_refl _
  | groupRef r =>
      simp [ActionQueue.itemTotalCount, itemExpandedLength,
        GroupReference.getActions, ActionGroup.getActions, ActionGroup.size]
  | repeatBlock b =>
      simp only [wellFormedItem, Bool.and_eq_true, decide_eq_true_eq,
        Bool.not_eq_true', List.all_eq_true] at h
      obtain ⟨⟨hc, hne⟩, hall⟩ := h
      rw [show ActionQueue.itemTotalCount (QueueItem.repeatBlock b) = 1 from rfl,
        show itemExpandedLength (QueueItem.repeatBlock b)
          = (b.getExpandedActions).length from rfl,
        repeat_expansion_length]
      have hL := repeat_iteration_length_pos b hne hall
      have hcn : 1 ≤ b.count.toNat := by omega
      calc 1 = 1 * 1 := by omega
        _ ≤ b.count.toNat *
              (b.items.map fun it => (RepeatBlock.expandOne it).length).sum :=
            Nat.mul_le_mul hcn hL
  | recursiveRef r =>
      simp only [wellFormedItem, Bool.and_eq_true, decide_eq_true_eq,
        Bool.or_eq_true, Bool.not_eq_true'] at h
      obtain ⟨hd, hpq⟩ := h
      rw [show ActionQueue.itemTotalCount (QueueItem.recursiveRef r) = 1 from rfl,
        show itemExpandedLength (QueueItem.recursiveRef r)
          = (r.getExpandedActions).length from rfl,
        recursive_expansion_length_eq]
      have hbs : 1 ≤ r.group.baseSize := by
        rw [RecursiveGroup.baseSize]
        rcases hpq with hp | hp
        · have h1 : 0 < r.group.preActions.length :=
            List.length_pos.mpr (by
              intro hnil
              rw [hnil] at hp
              simp at hp)
          omega
        · have h1 : 0 < r.group.postActions.length :=
            List.length_pos.mpr (by
              intro hnil
              rw [hnil] at hp
              simp at hp)
          omega
      have hdn : 1 ≤ r.group.maxDepth.toNat := by omega
      calc 1 = 1 * 1 := by omega
        _ ≤ r.group.baseSize * r.group.maxDepth.toNat :=
            Nat.mul_le_mul hbs hdn

theorem itemCount_lt_expLen (it : QueueItem) (hw : wellFormedItem it = true)
    (ht : triggerItem it = true) :
    ActionQueue.itemTotalCount it < itemExpandedLength it := by
  cases it with
  | act a => simp [triggerItem] at ht
  | groupRef r => simp [triggerItem] at ht
  | repeatBlock b =>
      simp only [wellFormedItem, Bool.and_eq_true, decide_eq_true_eq,
        Bool.not_eq_true', List.all_eq_true] at hw
      obtain ⟨⟨hc, hne⟩, hall⟩ := hw
      simp only [triggerItem, decide_eq_true_eq] at ht
      rw [show ActionQueue.itemTotalCount (QueueItem.repeatBlock b) = 1 from rfl,
        show itemExpandedLength (QueueItem.repeatBlock b)
          = (b.getExpandedActions).length from rfl,
        repeat_expansion_length]
      have hL := repeat_iteration_length_pos b hne hall
      have hcn : 2 ≤ b.count.toNat := by omega
      calc 1 < 2 * 1 := by omega
        _ ≤ b.count.toNat *
              (b.items.map fun it => (RepeatBlock.expandOne it).length).sum :=
            Nat.mul_le_mul hcn hL
  | recursiveRef r =>
      simp only [wellFormedItem, Bool.and_eq_true, decide_eq_true_eq,
        Bool.or_eq_true, Bool.not_eq_true'] at hw
      obtain ⟨hd, _⟩ := hw
      simp only [triggerItem, Bool.and_eq_true, Bool.not_eq_true'] at ht
      obtain ⟨hp, hq⟩ := ht
      rw [show ActionQueue.itemTotalCount (QueueItem.recursiveRef r) = 1 from rfl,
        show itemExpandedLength (QueueItem.recursiveRef r)
          = (r.getExpandedActions).length from rfl,
        recursive_expansion_length_eq]
      have hp1 : 0 < r.group.preActions.length :=
        List.length_pos.mpr (by
          intro hnil
          rw [hnil] at hp
          simp at hp)
      have hq1 : 0 < r.group.postActions.length :=
        List.length_pos.mpr (by
          intro hnil
          rw [hnil] at hq
          simp at hq)
      have hbs : 2 ≤ r.group.baseSize := by
        rw [RecursiveGroup.baseSize]
        omega
      have hdn : 1 ≤ r.group.maxDepth.toNat := by omega
      calc 1 < 2 * 1 := by omega
        _ ≤ r.group.baseSize * r.group.maxDepth.toNat :=
            Nat.mul_le_mul hbs hdn

/-- The queue refuting C10 as stated: a repeat block with `count = 2` but no
items expands to nothing, yet counts 1 in `totalActions`. -/
def emptyRepeatQueue : ActionQueue :=
  { maxSize := 50, items := [.repeatBlock { count := 2, items := [] }] }

/-- C10 counterexample: for a queue holding a repeat block with `count = 2`
and no items, `totalActions = 1` while the expansion is empty, so
`totalActions` is not strictly less than the expansion length. -/
theorem totalActions_vs_expansion_counterexample :
    emptyRepeatQueue.totalActions = 1 ∧
    (emptyRepeatQueue.expandItems).expandedActions.length = 0 ∧
    ¬ emptyRepeatQueue.totalActions <
        (emptyRepeatQueue.expandItems).expandedActions.length := by
  decide

/-- C10 (amended): `totalActions` counts each plain action as 1, each group
reference as its group's size, and each repeat block and recursive reference
as exactly 1; and for every queue whose repeat blocks have a positive count,
at least one item and only non-empty groups inside, and whose recursive
references have positive depth and a non-empty action list, if some item is
a repeat block with `count > 1` or a recursive reference whose pre and post
lists are both non-empty, then `totalActions` is strictly less than the
length of the expansion produced by `expandItems()`. -/
theorem totalActions_lt_expansion_amended (q : ActionQueue)
    (hwf : q.items.all wellFormedItem = true)
    (htr : q.items.any triggerItem = true) :
    q.totalActions = (q.items.map ActionQueue.itemTotalCount).sum ∧
    q.totalActions < (q.expandItems).expandedActions.length := by
  refine ⟨totalActions_eq_sum q, ?_⟩
  rw [totalActions_eq_sum, expandItems_length]
  rw [List.all_eq_true] at hwf
  rw [List.any_eq_true] at htr
  obtain ⟨x, hx, hxt⟩ := htr
  exact sum_lt_sum_of_le_of_lt _ _ _
    (fun z hz => itemCount_le_expLen z (hwf z hz))
    ⟨x, hx, itemCount_lt_expLen x (hwf x hx) hxt⟩

/-- The queue for the amended-C10 witness: one repeat block, `count = 2`,
one plain item. -/
def repeatTwiceQueue : ActionQueue :=
  { maxSize := 50,
    items := [.repeatBlock { count := 2, items := [.act (Action.make .moveUp)] }] }

/-- Concrete instantiation of `totalActions_lt_expansion_amended`. -/
theorem totalActions_lt_expansion_amended_witness :
    repeatTwiceQueue.items.all wellFormedItem = true ∧
    repeatTwiceQueue.items.any triggerItem = true ∧
    repeatTwiceQueue.totalActions <
      (repeatTwiceQueue.expandItems).expandedActions.length :=
  ⟨by decide, by decide,
   (totalActions_lt_expansion_amended repeatTwiceQueue (by decide) (by decide)).2⟩


end StartSchool
